import Mathlib

/-!
Verification development for the workforce PDF generator.

The JavaScript/TypeScript sources are shallowly embedded:

* JS strings are `List Char` (`JStr`); the JS string methods used by the
  sources (`split`, `trim` emptiness, `replace` with a character-class
  regex, template concatenation) are given as executable Lean functions.
* The pdf-lib drawing surface is a list of operations (`Op`): page breaks
  carry the cursor before and after the break exactly as the source assigns
  it, text draws carry position, size, font flavour and text, and copied
  pages of an embedded document carry their source index.
* Filesystem, database and pdf-lib effects are oracles supplied through
  environment records; a fallible step is an `Except` value in the
  environment.  Thrown JS values are `Thrown`; `.app` is an
  `ApplicationError` (message and statusCode), `.raw` any other thrown
  value.
* `widthOfTextAtSize` of the embedded regular font is an arbitrary partial
  metric `w : JStr → Option ℚ`: `some` is a measured width and `none` is a
  thrown encoding error.  The catch around the measurement in the word loop
  (reachable, since the sanitising regex leaves tab, a lone carriage return
  and code points above 0xFF, which WinAnsi cannot encode) is modelled
  faithfully: a `none` measurement skips the word.
-/

/-- Decidable equality of `Except` outcomes, used to evaluate the models on
concrete environments. -/
instance {ε α : Type} [DecidableEq ε] [DecidableEq α] : DecidableEq (Except ε α) :=
  fun x y =>
    match x, y with
    | .ok a, .ok b => decidable_of_iff (a = b) ⟨fun h => h ▸ rfl, fun h => by injection h⟩
    | .error a, .error b => decidable_of_iff (a = b) ⟨fun h => h ▸ rfl, fun h => by injection h⟩
    | .ok _, .error _ => isFalse (fun h => Except.noConfusion h)
    | .error _, .ok _ => isFalse (fun h => Except.noConfusion h)

/-- JS strings, embedded as lists of characters. -/
abbrev JStr := List Char

/-- Lean string literal to `JStr`. -/
def jstr (s : String) : JStr := s.data

/-- Characters removed by the sanitising regex
`/[\x00-\x08\x0B\x0C\x0E-\x1F\x7F-\xFF]/g` used by `addTitle`,
`addSection` and `wrapText`. -/
def isStrippedChar (c : Char) : Bool :=
  c.toNat ≤ 0x08 || c.toNat == 0x0B || c.toNat == 0x0C ||
  (0x0E ≤ c.toNat && c.toNat ≤ 0x1F) ||
  (0x7F ≤ c.toNat && c.toNat ≤ 0xFF)

/-- `s.replace(/[\x00-\x08\x0B\x0C\x0E-\x1F\x7F-\xFF]/g, "")`. -/
def cleanChars (s : JStr) : JStr := s.filter (fun c => !isStrippedChar c)

/-- The JS `WhiteSpace`/`LineTerminator` characters recognised by
`String.prototype.trim`. -/
def isJsWhitespace (c : Char) : Bool :=
  c == ' ' || c == '\t' || c == '\n' || c == '\r' ||
  c.toNat == 0x0B || c.toNat == 0x0C || c.toNat == 0xA0 ||
  c.toNat == 0x1680 || (0x2000 ≤ c.toNat && c.toNat ≤ 0x200A) ||
  c.toNat == 0x2028 || c.toNat == 0x2029 || c.toNat == 0x202F ||
  c.toNat == 0x205F || c.toNat == 0x3000 || c.toNat == 0xFEFF

/-- Falsiness of `s.trim()`: the string trims to the empty string. -/
def isBlank (p : JStr) : Bool := p.all isJsWhitespace

/-- JS `String.prototype.split` with a one-character separator string:
`"".split(sep) = [""]`, separators at the ends and doubled separators
produce empty fragments. -/
def jsSplit (sep : Char) : JStr → List JStr
  | [] => [[]]
  | c :: rest =>
    if c = sep then [] :: jsSplit sep rest
    else
      match jsSplit sep rest with
      | [] => [[c]]
      | w :: ws => (c :: w) :: ws

/-- Join fragments with a one-character separator (inverse of `jsSplit`). -/
def joinSep (sep : Char) : List JStr → JStr
  | [] => []
  | [l] => l
  | l :: ls => l ++ sep :: joinSep sep ls

/-- Remove one trailing carriage return. -/
def dropTrailingCR (p : JStr) : JStr :=
  if p.getLast? = some '\r' then p.dropLast else p

/-- Apply `f` to every element except the last. -/
def mapInit (f : JStr → JStr) : List JStr → List JStr
  | [] => []
  | [a] => [a]
  | a :: b :: r => f a :: mapInit f (b :: r)

/-- `text.split(/\r?\n/)`: split at every `"\n"`, additionally consuming a
carriage return immediately before a consumed `"\n"`. -/
def splitParagraphs (s : JStr) : List JStr :=
  mapInit dropTrailingCR (jsSplit '\n' s)

/-- `PDF_CONFIG.PAGE_WIDTH` (A4 width in points). -/
def PAGE_WIDTH : ℚ := 59528 / 100

/-- `PDF_CONFIG.PAGE_HEIGHT` (A4 height in points). -/
def PAGE_HEIGHT : ℚ := 84189 / 100

/-- `PDF_CONFIG.MARGIN`. -/
def MARGIN : ℚ := 50

/-- `PDF_CONFIG.TITLE_SIZE`. -/
def TITLE_SIZE : ℚ := 24

/-- `PDF_CONFIG.HEADING_SIZE`. -/
def HEADING_SIZE : ℚ := 16

/-- `PDF_CONFIG.TEXT_SIZE`. -/
def TEXT_SIZE : ℚ := 12

/-- `PDF_CONFIG.LINE_HEIGHT`. -/
def LINE_HEIGHT : ℚ := 18

/-- The candidate line of one `wrapText` iteration:
`currentLine ? currentLine + " " + cleanWord : cleanWord`. -/
def testLineOf (currentLine cleanWord : JStr) : JStr :=
  if currentLine ≠ [] then currentLine ++ ' ' :: cleanWord else cleanWord

/-- The inner word loop of `wrapText`, carrying the source's mutable
`lines` and `currentLine`.  `w` is the partial width metric
(`fonts.regular.widthOfTextAtSize(·, TEXT_SIZE)` inside the loop's `try`):
when measuring the candidate line throws (`none`), the `catch` skips the
word (`continue`) and the state is unchanged. -/
def wrapWords (w : JStr → Option ℚ) (maxWidth : ℚ) :
    List JStr → JStr → List JStr → List JStr × JStr
  | lines, currentLine, [] => (lines, currentLine)
  | lines, currentLine, word :: rest =>
    match w (testLineOf currentLine (cleanChars word)) with
    | none => wrapWords w maxWidth lines currentLine rest
    | some textWidth =>
      if maxWidth < textWidth ∧ currentLine ≠ [] then
        wrapWords w maxWidth (lines ++ [currentLine]) (cleanChars word) rest
      else
        wrapWords w maxWidth lines (testLineOf currentLine (cleanChars word)) rest

/-- The per-paragraph body of `wrapText`: a blank paragraph contributes one
empty line, otherwise the paragraph is split at spaces and the word loop
runs with an empty accumulator, pushing the final `currentLine` when it is
non-empty (truthy). -/
def wrapParagraph (w : JStr → Option ℚ) (maxWidth : ℚ) (p : JStr) : List JStr :=
  if isBlank p then [[]]
  else
    let r := wrapWords w maxWidth [] [] (jsSplit ' ' p)
    if r.2 ≠ [] then r.1 ++ [r.2] else r.1

/-- `wrapText(text, context)`: split into paragraphs at `/\r?\n/`, wrap each
paragraph against `maxWidth = pageWidth - 2 * margin`, concatenate. -/
def wrapText (w : JStr → Option ℚ) (text : JStr) (pageWidth margin : ℚ) : List JStr :=
  (splitParagraphs text).flatMap (wrapParagraph w (pageWidth - 2 * margin))

/-- The non-empty space-separated tokens of a produced line. -/
def lineWords (l : JStr) : List JStr :=
  (jsSplit ' ' l).filter (fun t => !t.isEmpty)

/-- The words `wrapText` distributes over lines: the space-separated tokens
of each non-blank paragraph, sanitised, with tokens that sanitise to the
empty string dropped. -/
def textWords (text : JStr) : List JStr :=
  (splitParagraphs text).flatMap (fun p =>
    if isBlank p then []
    else ((jsSplit ' ' p).map cleanChars).filter (fun t => !t.isEmpty))

/-- Concatenating the produced lines with single spaces, restoring explicit
newlines at paragraph boundaries. -/
def reconstructText (w : JStr → Option ℚ) (pageWidth margin : ℚ) (text : JStr) : JStr :=
  joinSep '\n'
    ((splitParagraphs text).map (fun p => joinSep ' ' (wrapParagraph w (pageWidth - 2 * margin) p)))

/-- Modelled from the spec: the fixed font/size metric.  pdf-lib's
`widthOfTextAtSize` for the standard Helvetica font sums the AFM glyph
widths (in thousandths of the em) and scales by `size / 1000`.  Only the
characters measured in this development carry their true AFM width
(`'W'` has AFM width 944, the space 278); all others default to the width
556 of `'a'`. -/
def helveticaAfmWidth (c : Char) : ℕ :=
  if c = 'W' then 944 else if c = ' ' then 278 else 556

/-- Modelled from the spec: Helvetica text width at a font size, in points. -/
def helveticaWidthAtSize (s : JStr) (size : ℚ) : ℚ :=
  (((s.map helveticaAfmWidth).sum : ℕ) : ℚ) * size / 1000

/-- Modelled from the spec: characters the WinAnsi encoding of pdf-lib can
encode; a string with any other character makes `widthOfTextAtSize` throw.
Only the printable-ASCII core matters for this development (the Windows-1252
extension beyond it is stripped by the sanitiser anyway). -/
def isWinAnsiEncodable (c : Char) : Bool :=
  0x20 ≤ c.toNat && c.toNat ≤ 0x7E

/-- Modelled from the spec: pdf-lib's `widthOfTextAtSize` for Helvetica as a
partial metric — a measured width on WinAnsi-encodable text, a thrown
encoding error (`none`) otherwise. -/
def helveticaMetric (s : JStr) (size : ℚ) : Option ℚ :=
  if s.all isWinAnsiEncodable then some (helveticaWidthAtSize s size) else none

/-- One operation on the generated document.  A `newPage` records the
cursor value just before `doc.addPage` and the value the source assigns
right after (`pageHeight - margin`); a `draw` records the arguments of a
`page.drawText` call; a `copyPage` records one page copied out of the
uploaded PDF by index. -/
inductive Op where
  | newPage (yBefore yAfter : ℚ)
  | draw (x y size : ℚ) (bold : Bool) (text : JStr)
  | copyPage (srcIndex : ℕ)
deriving DecidableEq, Repr

/-- The line loop of `addSection`, returning the operations it emits and
the final cursor: each iteration breaks the page when the cursor is below
`margin + 20` (resetting it to `pageHeight - margin`), draws the line at
the cursor unless the line is blank (`line.trim()` falsy), and advances the
cursor by `LINE_HEIGHT`. -/
def lineStep (ph m : ℚ) (y : ℚ) : List JStr → List Op × ℚ
  | [] => ([], y)
  | line :: rest =>
    let y1 := if y < m + 20 then ph - m else y
    let emitted :=
      (if y < m + 20 then [Op.newPage y (ph - m)] else []) ++
        (if isBlank line then [] else [Op.draw m y1 TEXT_SIZE false line])
    let r := lineStep ph m (y1 - LINE_HEIGHT) rest
    (emitted ++ r.1, r.2)

/-- `addSection(context, heading, content)`: returns the operations emitted
and the final cursor, given the incoming cursor `y0`.  A new page is
started first when the cursor is below `margin + 100`; the sanitised
heading is drawn; the sanitised content is wrapped and drawn by the line
loop; section spacing of 20 is subtracted at the end. -/
def addSectionRun (pw ph m : ℚ) (w : JStr → Option ℚ) (y0 : ℚ) (heading content : JStr) :
    List Op × ℚ :=
  let entryOps : List Op := if y0 < m + 100 then [Op.newPage y0 (ph - m)] else []
  let y1 := if y0 < m + 100 then ph - m else y0
  let y2 := y1 - (HEADING_SIZE + 10)
  let r := lineStep ph m y2 (wrapText w (cleanChars content) pw m)
  (entryOps ++ Op.draw m y1 HEADING_SIZE true (cleanChars heading) :: r.1, r.2 - 20)

/-- `addTitle(context, title)`. -/
def addTitleRun (m : ℚ) (y : ℚ) (title : JStr) : List Op × ℚ :=
  ([Op.draw m y TITLE_SIZE true (cleanChars title)], y - (TITLE_SIZE + 20))

/-- A thrown JS value that is not an `ApplicationError`: an `Error` with a
message, or any other value. -/
inductive JsErr where
  | error (msg : JStr)
  | nonError
deriving DecidableEq, Repr

/-- A thrown JS value: an `ApplicationError` (message, statusCode) or a raw
one. -/
inductive Thrown where
  | app (msg : JStr) (statusCode : ℕ)
  | raw (e : JsErr)
deriving DecidableEq, Repr

/-- `error instanceof Error ? error.message : "Unknown error"`. -/
def jsErrMessage : JsErr → JStr
  | .error m => m
  | .nonError => jstr "Unknown error"

/-- `pdfError instanceof Error ? pdfError.message : "Unknown error"`. -/
def thrownMessage : Thrown → JStr
  | .app m _ => m
  | .raw e => jsErrMessage e

/-- Outcomes of the filesystem and pdf-lib effects inside
`embedUploadedPDF`: `access(filePath)`, `readFile(filePath)` (byte count),
`PDFDocument.load` (page count of the loaded document), and
`doc.copyPages`. -/
structure EmbedEnv where
  access : Except JsErr Unit
  readLen : Except JsErr ℕ
  load : Except JsErr ℕ
  copy : Except JsErr Unit
deriving DecidableEq, Repr

/-- `path.basename`: the part after the last `'/'`. -/
def jsBasename (p : JStr) : JStr := (jsSplit '/' p).getLastD []

/-- `embedUploadedPDF(context, filePath)`.  Every failure is caught and
turned into an explanatory `addSection`; the function value is `.ok` in the
generation monad, mirroring that the source returns normally in every
case. -/
def embedUploadedPDF (env : EmbedEnv) (pw ph m : ℚ) (w : JStr → Option ℚ) (y : ℚ)
    (filePath : JStr) : Except Thrown (List Op × ℚ) :=
  let note : JStr → List Op × ℚ := fun msg =>
    addSectionRun pw ph m w y (jstr "Attached Document") msg
  let catchAll : JsErr → List Op × ℚ := fun e =>
    note (jstr "Document was uploaded but could not be embedded in this PDF. Error: " ++
      jsErrMessage e)
  match env.access with
  | .error e => .ok (catchAll e)
  | .ok _ =>
    match env.readLen with
    | .error e => .ok (catchAll e)
    | .ok 0 => .ok (note (jstr "Document file was empty and could not be processed."))
    | .ok (_ + 1) =>
      match env.load with
      | .error _ =>
        .ok (note (jstr "Document \"" ++ jsBasename filePath ++
          jstr "\" was uploaded but could not be processed. The file may be corrupted or encrypted."))
      | .ok pageCount =>
        if pageCount = 0 then
          .ok (note (jstr "Document file contains no pages and could not be processed."))
        else
          match env.copy with
          | .error _ =>
            .ok (note (jstr "Document \"" ++ jsBasename filePath ++
              jstr "\" was uploaded but pages could not be copied. The file may have restrictions or be corrupted."))
          | .ok _ =>
            let r := addSectionRun pw ph m w y (jstr "Attached Resume/Document")
              (jstr "The following " ++ jstr (toString pageCount) ++
                jstr " page(s) contain the uploaded document:")
            .ok (r.1 ++ (List.range pageCount).map Op.copyPage, r.2)

/-- A `UserSubmission` record.  `createdAtText` is the locale-rendered
creation date (`toLocaleDateString` is library behaviour, its output is
taken as given). -/
structure Submission where
  id : JStr
  firstName : JStr
  lastName : JStr
  email : JStr
  phone : Option JStr
  jobDescription : JStr
  uploadedFilePath : Option JStr
  uploadedFileName : Option JStr
  status : JStr
  createdAtText : JStr
deriving DecidableEq, Repr

/-- JS truthiness of a nullable string field. -/
def jsTruthy : Option JStr → Bool
  | none => false
  | some s => !s.isEmpty

/-- `submission.phone || "Not provided"`. -/
def phoneOrDefault (o : Option JStr) : JStr :=
  match o with
  | some p => if p.isEmpty then jstr "Not provided" else p
  | none => jstr "Not provided"

/-- `generateApplicantInfo(submission)`. -/
def generateApplicantInfo (s : Submission) : JStr :=
  joinSep '\n'
    [jstr "Name: " ++ s.firstName ++ jstr " " ++ s.lastName,
     jstr "Email: " ++ s.email,
     jstr "Phone: " ++ phoneOrDefault s.phone,
     jstr "Application Date: " ++ s.createdAtText,
     jstr "Status: " ++ s.status]

/-- `generateDocumentInfo(submission)`. -/
def generateDocumentInfo (s : Submission) : JStr :=
  if jsTruthy s.uploadedFileName = false then jstr "No document uploaded"
  else
    jstr "Uploaded File: " ++ s.uploadedFileName.getD [] ++
      jstr "\nFile processed and attached to this PDF."

/-- Outcomes of the effects of `generatePDF` after content generation:
`pdfDoc.save()` (byte count), `mkdir`, `writeFile`, and the verification
`access`/`readFile` (byte count), plus the embedding effects. -/
structure GenEnv where
  embed : EmbedEnv
  save : Except JsErr ℕ
  mkdirE : Except JsErr Unit
  writeE : Except JsErr Unit
  verifyAccess : Except JsErr Unit
  verifyRead : Except JsErr ℕ
deriving DecidableEq, Repr

/-- The content layout of `generatePDF`: title, then the three sections, on
a first page starting at `pageHeight - margin`. -/
def contentRun (s : Submission) (w : JStr → Option ℚ) : List Op × ℚ :=
  let t := addTitleRun MARGIN (PAGE_HEIGHT - MARGIN) (jstr "Application Summary")
  let s1 := addSectionRun PAGE_WIDTH PAGE_HEIGHT MARGIN w t.2
    (jstr "Applicant Information") (generateApplicantInfo s)
  let s2 := addSectionRun PAGE_WIDTH PAGE_HEIGHT MARGIN w s1.2
    (jstr "Current Job Description") s.jobDescription
  let s3 := addSectionRun PAGE_WIDTH PAGE_HEIGHT MARGIN w s2.2
    (jstr "Uploaded Document") (generateDocumentInfo s)
  (t.1 ++ s1.1 ++ s2.1 ++ s3.1, s3.2)

/-- The verification block of `generatePDF`: `access`, `readFile`, then an
emptiness check; the inner `catch` converts any failure (including the
"Saved PDF file is empty" `ApplicationError`) into
"PDF file verification failed". -/
def verifyStep (env : GenEnv) : Except Thrown Unit :=
  match env.verifyAccess with
  | .error e => .error (.raw e)
  | .ok _ =>
    match env.verifyRead with
    | .error e => .error (.raw e)
    | .ok 0 => .error (.app (jstr "Saved PDF file is empty") 500)
    | .ok (_ + 1) => .ok ()

/-- The content-plus-embedding stage of `generatePDF`: the drawn content,
then (when a file path is recorded, JS-truthily) the uploaded PDF is
embedded. -/
def embedStage (s : Submission) (env : GenEnv) (w : JStr → Option ℚ) :
    Except Thrown (List Op × ℚ) :=
  let base := contentRun s w
  if jsTruthy s.uploadedFilePath then
    match embedUploadedPDF env.embed PAGE_WIDTH PAGE_HEIGHT MARGIN w base.2
        (s.uploadedFilePath.getD []) with
    | .ok r => .ok (base.1 ++ r.1, r.2)
    | .error e => .error e
  else .ok base

/-- The save/write/verify tail of `generatePDF`: `pdfDoc.save()` with the
emptiness check, `mkdir`, `writeFile`, then the verification block. -/
def savePipeline (env : GenEnv) (ops : List Op) (y : ℚ) (pdfPath : JStr) :
    Except Thrown (List Op × ℚ × ℕ × JStr) :=
  match env.save with
  | .error e => .error (.raw e)
  | .ok len =>
    if len = 0 then .error (.app (jstr "Generated PDF is empty") 500)
    else
      match env.mkdirE with
      | .error e => .error (.raw e)
      | .ok _ =>
        match env.writeE with
        | .error e => .error (.raw e)
        | .ok _ =>
          match verifyStep env with
          | .error _ => .error (.app (jstr "PDF file verification failed") 500)
          | .ok _ => .ok (ops, y, len, pdfPath)

/-- The `try` body of `generatePDF`: content, optional embedding, save,
write and verify.  Returns the emitted operations, the final cursor, the
saved byte count and the saved path. -/
def generatePDFBody (s : Submission) (env : GenEnv) (w : JStr → Option ℚ) :
    Except Thrown (List Op × ℚ × ℕ × JStr) :=
  match embedStage s env w with
  | .error e => .error e
  | .ok (ops, y) =>
    savePipeline env ops y (jstr "uploads/generated/application-" ++ s.id ++ jstr ".pdf")

/-- The result of a successful `generatePDF` run.  `saveMeta` stands for the
run-specific metadata pdf-lib embeds into the saved bytes (creation and
modification timestamps, document id), which is the only part of the output
not determined by the submission and the environment. -/
structure GenResult where
  ops : List Op
  finalY : ℚ
  bytesLen : ℕ
  pdfPath : JStr
  saveMeta : ℕ
deriving DecidableEq, Repr

/-- `generatePDF(submission)` with its outer `catch`: an `ApplicationError`
is rethrown, an `Error` is wrapped as
`ApplicationError("PDF generation failed: " + message, 500)`, anything else
as `ApplicationError(ERROR_MESSAGES.PDF_GENERATION_FAILED, 500)`. -/
def generatePDFRun (s : Submission) (env : GenEnv) (w : JStr → Option ℚ) (saveMeta : ℕ) :
    Except Thrown GenResult :=
  match generatePDFBody s env w with
  | .ok (ops, y, len, p) => .ok ⟨ops, y, len, p, saveMeta⟩
  | .error (.app msg c) => .error (.app msg c)
  | .error (.raw (.error msg)) =>
    .error (.app (jstr "PDF generation failed: " ++ msg) 500)
  | .error (.raw .nonError) => .error (.app (jstr "Failed to generate PDF") 500)

/-- Whether an operation adds a page to the document. -/
def opAddsPage : Op → Bool
  | .newPage _ _ => true
  | .copyPage _ => true
  | .draw _ _ _ _ _ => false

/-- Page count of a generation outcome: the initial page plus every added
page. -/
def pageCountOf : Except Thrown GenResult → Option ℕ
  | .ok r => some (1 + r.ops.countP opAddsPage)
  | .error _ => none

/-- Text content of a generation outcome: the drawn strings in order. -/
def textContentOf : Except Thrown GenResult → Option (List JStr)
  | .ok r => some (r.ops.filterMap (fun op =>
      match op with
      | .draw _ _ _ _ t => some t
      | _ => none))
  | .error _ => none

/-- pdf-lib's default page height (US Letter, 612 x 792 points), used by
`generateSimplePDF`'s argumentless `addPage()`. -/
def SIMPLE_PAGE_HEIGHT : ℚ := 792

/-- Outcomes of the effects of `generateSimplePDF`. -/
structure SimpleEnv where
  save : Except JsErr ℕ
  mkdirE : Except JsErr Unit
  writeE : Except JsErr Unit
deriving DecidableEq, Repr

/-- The fixed-position draws of `generateSimplePDF`. -/
def simpleContentOps (s : Submission) : List Op :=
  let h := SIMPLE_PAGE_HEIGHT
  [Op.draw 50 (h - 50) 24 true (jstr "Application Summary"),
   Op.draw 50 (h - 100) 12 false (jstr "Name: " ++ s.firstName ++ jstr " " ++ s.lastName),
   Op.draw 50 (h - 120) 12 false (jstr "Email: " ++ s.email),
   Op.draw 50 (h - 140) 12 false (jstr "Phone: " ++ phoneOrDefault s.phone),
   Op.draw 50 (h - 160) 12 false (jstr "Application Date: " ++ s.createdAtText),
   Op.draw 50 (h - 200) 16 true (jstr "Job Description:"),
   Op.draw 50 (h - 230) 12 false s.jobDescription]

/-- The `try` body of `generateSimplePDF`. -/
def generateSimplePDFBody (s : Submission) (env : SimpleEnv) :
    Except Thrown (List Op × ℕ × JStr) :=
  match env.save with
  | .error e => .error (.raw e)
  | .ok 0 => .error (.app (jstr "Generated PDF is empty") 500)
  | .ok (len + 1) =>
    match env.mkdirE with
    | .error e => .error (.raw e)
    | .ok _ =>
      match env.writeE with
      | .error e => .error (.raw e)
      | .ok _ =>
        .ok (simpleContentOps s, len + 1,
          jstr "uploads/generated/application-" ++ s.id ++ jstr ".pdf")

/-- `generateSimplePDF(submission)` with its outer `catch`. -/
def generateSimplePDFRun (s : Submission) (env : SimpleEnv) :
    Except Thrown (List Op × ℕ × JStr) :=
  match generateSimplePDFBody s env with
  | .ok r => .ok r
  | .error (.app msg c) => .error (.app msg c)
  | .error (.raw (.error msg)) =>
    .error (.app (jstr "Simple PDF generation failed: " ++ msg) 500)
  | .error (.raw .nonError) => .error (.app (jstr "Simple PDF generation failed") 500)

/-- A successful database operation performed by the submit handler on the
submission record. -/
inductive DbEvent where
  | create (status : JStr)
  | update (status : JStr)
deriving DecidableEq, Repr

/-- The HTTP response of the submit handler. -/
inductive PostResponse where
  | success (id pdfUrl : JStr)
  | failure (status : ℕ) (msg : JStr)
deriving DecidableEq, Repr

/-- Modelled from the spec: `handleApiError` from `src/lib/file-utils`,
which is not part of the repository snapshot.  Per its call sites and the
error-message constants, an `ApplicationError` keeps its own message and
statusCode and any other thrown value becomes a generic 500
(`ERROR_MESSAGES.SERVER_ERROR`). -/
def handleApiError : Thrown → ℕ × JStr
  | .app m c => (c, m)
  | .raw _ => (500, jstr "Internal server error")

/-- Outcomes of the effects of the submit handler `POST`:
`request.formData()`, the Zod form validation, file presence and
`validateFile`, `mkdir`/`writeFile` for the upload, the record creation
(returning the new id), the `generatePDF` call, and the two status
updates. -/
structure PostEnv where
  formDataOk : Except JsErr Unit
  formValid : Bool
  filePresent : Bool
  fileValid : Bool
  mkdirU : Except JsErr Unit
  writeU : Except JsErr Unit
  createResult : Except JsErr JStr
  pdfResult : Except Thrown JStr
  updateFailedResult : Except JsErr Unit
  updateCompletedResult : Except JsErr Unit
deriving DecidableEq, Repr

/-- `SubmissionStatus.PROCESSING`. -/
def STATUS_PROCESSING : JStr := jstr "processing"

/-- `SubmissionStatus.COMPLETED`. -/
def STATUS_COMPLETED : JStr := jstr "completed"

/-- `SubmissionStatus.FAILED` . -/
def STATUS_FAILED : JStr := jstr "failed"

/-- The submit handler `POST`: returns the successful record operations in
order and the response.  A Zod failure is rendered through the modelled
`handleApiError` as a 400 with `ERROR_MESSAGES.VALIDATION_ERROR`. -/
def POSTRun (env : PostEnv) : List DbEvent × PostResponse :=
  match env.formDataOk with
  | .error e => ([], .failure (handleApiError (.raw e)).1 (handleApiError (.raw e)).2)
  | .ok _ =>
    if env.formValid = false then ([], .failure 400 (jstr "Invalid form data"))
    else if env.filePresent = false then ([], .failure 400 (jstr "No file uploaded"))
    else if env.fileValid = false then ([], .failure 400 (jstr "Only PDF files are allowed"))
    else
      match env.mkdirU with
      | .error e => ([], .failure (handleApiError (.raw e)).1 (handleApiError (.raw e)).2)
      | .ok _ =>
        match env.writeU with
        | .error e => ([], .failure (handleApiError (.raw e)).1 (handleApiError (.raw e)).2)
        | .ok _ =>
          match env.createResult with
          | .error e => ([], .failure (handleApiError (.raw e)).1 (handleApiError (.raw e)).2)
          | .ok subId =>
            match env.pdfResult with
            | .error e =>
              match env.updateFailedResult with
              | .error e2 =>
                ([DbEvent.create STATUS_PROCESSING],
                 .failure (handleApiError (.raw e2)).1 (handleApiError (.raw e2)).2)
              | .ok _ =>
                ([DbEvent.create STATUS_PROCESSING, DbEvent.update STATUS_FAILED],
                 .failure 500 (jstr "PDF generation failed: " ++ thrownMessage e))
            | .ok _ =>
              match env.updateCompletedResult with
              | .error e2 =>
                ([DbEvent.create STATUS_PROCESSING],
                 .failure (handleApiError (.raw e2)).1 (handleApiError (.raw e2)).2)
              | .ok _ =>
                ([DbEvent.create STATUS_PROCESSING, DbEvent.update STATUS_COMPLETED],
                 .success subId (jstr "/api/pdf/" ++ subId))

/-- The state of the generated PDF file on disk as the download handler
sees it: missing (`access` rejects), unreadable (`access` resolves,
`readFile` rejects), or readable with a byte count. -/
inductive FileView where
  | absent
  | unreadable
  | present (len : ℕ)
deriving DecidableEq, Repr

/-- The columns the download handler selects from the submission record. -/
structure GetRecord where
  firstName : JStr
  lastName : JStr
  generatedPdfPath : Option JStr
  status : JStr
deriving DecidableEq, Repr

/-- What the database and filesystem give the download handler for the
requested id. -/
structure GetEnv where
  record : Option GetRecord
  file : FileView
deriving DecidableEq, Repr

/-- The HTTP response of the download handler. -/
inductive GetResponse where
  | pdf (len : ℕ) (contentType : JStr) (fileName : JStr)
  | err (status : ℕ) (msg : JStr)
deriving DecidableEq, Repr

/-- `c.replace(/[^a-zA-Z0-9]/g, "_")`, per character. -/
def sanitizeNameChar (c : Char) : Char :=
  if ('a' ≤ c && c ≤ 'z') || ('A' ≤ c && c ≤ 'Z') || ('0' ≤ c && c ≤ '9') then c else '_'

/-- The attachment file name built by the download handler. -/
def safeDownloadName (r : GetRecord) : JStr :=
  jstr "application-" ++ r.firstName.map sanitizeNameChar ++ jstr "-" ++
    r.lastName.map sanitizeNameChar ++ jstr ".pdf"

/-- The download handler `GET`.  `!id || id.length < 10` collapses to the
length test since an empty string has length `0`. -/
def GETRun (id : JStr) (env : GetEnv) : GetResponse :=
  if id.length < 10 then .err 400 (jstr "Invalid submission ID")
  else
    match env.record with
    | none => .err 404 (jstr "Submission not found")
    | some r =>
      if r.status = STATUS_PROCESSING then
        .err 202 (jstr "PDF is still being generated. Please try again in a moment.")
      else if r.status = STATUS_FAILED then
        .err 500 (jstr "PDF generation failed. Please contact support.")
      else if jsTruthy r.generatedPdfPath = false then .err 404 (jstr "PDF not available")
      else
        match env.file with
        | .absent => .err 404 (jstr "PDF file not found on server")
        | .unreadable => .err 500 (jstr "Internal server error")
        | .present 0 => .err 500 (jstr "PDF file is empty")
        | .present (n + 1) => .pdf (n + 1) (jstr "application/pdf") (safeDownloadName r)

/-! ## Infrastructure lemmas: splitting, joining, sanitising -/

theorem jsSplit_ne_nil (sep : Char) (s : JStr) : jsSplit sep s ≠ [] := by
  cases s with
  | nil => simp [jsSplit]
  | cons c rest =>
    simp only [jsSplit]
    split
    · simp
    · cases h : jsSplit sep rest <;> simp

theorem jsSplit_append_sep (sep : Char) (a b : JStr) :
    jsSplit sep (a ++ sep :: b) = jsSplit sep a ++ jsSplit sep b := by
  induction a with
  | nil => simp [jsSplit]
  | cons c a ih =>
    show jsSplit sep (c :: (a ++ sep :: b)) = jsSplit sep (c :: a) ++ jsSplit sep b
    by_cases hc : c = sep
    · simp only [jsSplit, if_pos hc]
      rw [ih]
      simp
    · simp only [jsSplit, if_neg hc]
      rw [ih]
      cases h : jsSplit sep a with
      | nil => exact absurd h (jsSplit_ne_nil sep a)
      | cons w ws => simp

theorem mem_jsSplit_no_sep (sep : Char) (s : JStr) :
    ∀ t ∈ jsSplit sep s, sep ∉ t := by
  induction s with
  | nil =>
    intro t ht
    simp only [jsSplit, List.mem_singleton] at ht
    subst ht; simp
  | cons c rest ih =>
    intro t ht
    simp only [jsSplit] at ht
    by_cases hc : c = sep
    · rw [if_pos hc] at ht
      rcases List.mem_cons.1 ht with h | h
      · subst h; simp
      · exact ih t h
    · rw [if_neg hc] at ht
      cases h : jsSplit sep rest with
      | nil => exact absurd h (jsSplit_ne_nil sep rest)
      | cons v vs =>
        rw [h] at ht
        rcases List.mem_cons.1 ht with h1 | h1
        · subst h1
          intro hmem
          rcases List.mem_cons.1 hmem with h2 | h2
          · exact hc h2.symm
          · exact ih v (h ▸ List.mem_cons_self v vs) h2
        · exact ih t (h ▸ List.mem_cons_of_mem v h1)

theorem mem_of_mem_jsSplit (sep : Char) (s : JStr) :
    ∀ t ∈ jsSplit sep s, ∀ c ∈ t, c ∈ s := by
  induction s with
  | nil =>
    intro t ht
    simp only [jsSplit, List.mem_singleton] at ht
    subst ht; simp
  | cons a rest ih =>
    intro t ht c hc
    simp only [jsSplit] at ht
    by_cases ha : a = sep
    · rw [if_pos ha] at ht
      rcases List.mem_cons.1 ht with h | h
      · subst h; cases hc
      · exact List.mem_cons_of_mem a (ih t h c hc)
    · rw [if_neg ha] at ht
      cases h : jsSplit sep rest with
      | nil => exact absurd h (jsSplit_ne_nil sep rest)
      | cons v vs =>
        rw [h] at ht
        rcases List.mem_cons.1 ht with h1 | h1
        · subst h1
          rcases List.mem_cons.1 hc with h2 | h2
          · exact h2 ▸ List.mem_cons_self a rest
          · exact List.mem_cons_of_mem a (ih v (h ▸ List.mem_cons_self v vs) c h2)
        · exact List.mem_cons_of_mem a (ih t (h ▸ List.mem_cons_of_mem v h1) c hc)

theorem jsSplit_of_no_sep (sep : Char) (s : JStr) (h : sep ∉ s) : jsSplit sep s = [s] := by
  induction s with
  | nil => rfl
  | cons c rest ih =>
    have hc : ¬ c = sep := fun hh => h (List.mem_cons.2 (Or.inl hh.symm))
    have hrest := ih (fun hm => h (List.mem_cons_of_mem _ hm))
    simp only [jsSplit, if_neg hc, hrest]

theorem joinSep_jsSplit (sep : Char) (s : JStr) : joinSep sep (jsSplit sep s) = s := by
  induction s with
  | nil => rfl
  | cons c rest ih =>
    by_cases hc : c = sep
    · simp only [jsSplit, if_pos hc]
      cases h : jsSplit sep rest with
      | nil => exact absurd h (jsSplit_ne_nil sep rest)
      | cons v vs =>
        rw [h] at ih
        simp only [joinSep, List.nil_append]
        rw [ih, hc]
    · simp only [jsSplit, if_neg hc]
      cases h : jsSplit sep rest with
      | nil => exact absurd h (jsSplit_ne_nil sep rest)
      | cons v vs =>
        rw [h] at ih
        cases vs with
        | nil =>
          simp only [joinSep] at ih ⊢
          rw [ih]
        | cons v2 vs2 =>
          simp only [joinSep] at ih ⊢
          rw [List.cons_append, ih]

theorem joinSep_append_singleton (sep : Char) (xs : List JStr) (y : JStr) (h : xs ≠ []) :
    joinSep sep (xs ++ [y]) = joinSep sep xs ++ sep :: y := by
  induction xs with
  | nil => exact absurd rfl h
  | cons x xs ih =>
    cases xs with
    | nil => rfl
    | cons x2 xs2 =>
      have h2 := ih (by simp)
      simp only [List.cons_append] at h2 ⊢
      simp only [joinSep]
      rw [h2]
      simp [List.append_assoc]

theorem joinSep_append_extend (sep : Char) (xs : List JStr) (y z : JStr) :
    joinSep sep (xs ++ [y ++ z]) = joinSep sep (xs ++ [y]) ++ z := by
  cases xs with
  | nil => rfl
  | cons x xs =>
    rw [joinSep_append_singleton sep _ _ (by simp), joinSep_append_singleton sep _ _ (by simp)]
    simp

theorem joinSep_cons_flat (sep : Char) (x : JStr) (ls : List JStr) :
    joinSep sep (x :: ls) = x ++ ls.flatMap (fun t => sep :: t) := by
  induction ls generalizing x with
  | nil => simp [joinSep]
  | cons y ls ih =>
    simp only [joinSep, List.flatMap_cons]
    rw [ih y]
    simp

theorem mem_cleanChars (t : JStr) : ∀ c ∈ cleanChars t, c ∈ t := by
  intro c hc
  exact List.mem_of_mem_filter hc

theorem cleanChars_append (a b : JStr) :
    cleanChars (a ++ b) = cleanChars a ++ cleanChars b := by
  simp [cleanChars, List.filter_append]

theorem cleanChars_cons_keep (c : Char) (b : JStr) (h : isStrippedChar c = false) :
    cleanChars (c :: b) = c :: cleanChars b := by
  simp [cleanChars, List.filter_cons, h]

theorem cleanChars_joinSep (sep : Char) (h : isStrippedChar sep = false) (ls : List JStr) :
    cleanChars (joinSep sep ls) = joinSep sep (ls.map cleanChars) := by
  induction ls with
  | nil => rfl
  | cons x ls ih =>
    cases ls with
    | nil => rfl
    | cons y ls2 =>
      simp only [joinSep, List.map_cons] at ih ⊢
      rw [cleanChars_append, cleanChars_cons_keep sep _ h, ih]

theorem lineWords_nil : lineWords [] = [] := rfl

theorem lineWords_append_space (a b : JStr) :
    lineWords (a ++ ' ' :: b) = lineWords a ++ lineWords b := by
  unfold lineWords
  rw [jsSplit_append_sep, List.filter_append]

theorem lineWords_no_space (t : JStr) (h : ' ' ∉ t) :
    lineWords t = if t.isEmpty then [] else [t] := by
  unfold lineWords
  rw [jsSplit_of_no_sep _ _ h]
  cases t <;> simp [List.filter]

/-! ## The word loop of `wrapText` -/

theorem testLineOf_nil (cw : JStr) : testLineOf [] cw = cw := by
  simp [testLineOf]

theorem testLineOf_of_ne (cur cw : JStr) (h : cur ≠ []) :
    testLineOf cur cw = cur ++ ' ' :: cw := by
  simp [testLineOf, h]

theorem wrapWords_words_sublist (w : JStr → Option ℚ) (mw : ℚ) :
    ∀ (ws : List JStr) (lines : List JStr) (cur : JStr),
      (∀ t ∈ ws, ' ' ∉ t) →
      ∃ sub,
        (wrapWords w mw lines cur ws).1.flatMap lineWords ++
          lineWords (wrapWords w mw lines cur ws).2 =
        (lines.flatMap lineWords ++ lineWords cur) ++ sub ∧
        sub.Sublist ((ws.map cleanChars).filter (fun t => !t.isEmpty)) := by
  intro ws
  induction ws with
  | nil =>
    intro lines cur _
    exact ⟨[], by simp [wrapWords], by simp⟩
  | cons word rest ih =>
    intro lines cur h
    have hns : ' ' ∉ word := h word (List.mem_cons_self _ _)
    have hrest : ∀ t ∈ rest, ' ' ∉ t := fun t ht => h t (List.mem_cons_of_mem _ ht)
    have hcw : ' ' ∉ cleanChars word := fun hm => hns (mem_cleanChars _ _ hm)
    cases hww : w (testLineOf cur (cleanChars word)) with
    | none =>
      obtain ⟨sub, heq, hsub⟩ := ih lines cur hrest
      refine ⟨sub, ?_, ?_⟩
      · simp only [wrapWords, hww]
        exact heq
      · simp only [List.map_cons, List.filter_cons]
        cases hemp : (cleanChars word).isEmpty
        · simp only [hemp, Bool.not_false, if_true]
          exact List.Sublist.cons _ hsub
        · simp only [hemp, Bool.not_true, Bool.false_eq_true, if_false]
          exact hsub
    | some tw =>
      simp only [wrapWords, hww]
      split
      · obtain ⟨sub, heq, hsub⟩ := ih (lines ++ [cur]) (cleanChars word) hrest
        refine ⟨lineWords (cleanChars word) ++ sub, ?_, ?_⟩
        · rw [heq, List.flatMap_append]
          simp only [List.flatMap_cons, List.flatMap_nil, List.append_nil]
          simp [List.append_assoc]
        · rw [lineWords_no_space _ hcw]
          simp only [List.map_cons, List.filter_cons]
          cases hemp : (cleanChars word).isEmpty
          · simp only [hemp, Bool.not_false, if_true, Bool.false_eq_true, if_false,
              List.singleton_append]
            exact List.Sublist.cons₂ _ hsub
          · simp only [hemp, Bool.not_true, Bool.false_eq_true, if_true, if_false,
              List.nil_append]
            exact hsub
      · obtain ⟨sub, heq, hsub⟩ := ih lines (testLineOf cur (cleanChars word)) hrest
        refine ⟨lineWords (cleanChars word) ++ sub, ?_, ?_⟩
        · rw [heq]
          by_cases hcur : cur = []
          · rw [hcur, testLineOf_nil]
            simp [lineWords_nil, List.append_assoc]
          · rw [testLineOf_of_ne _ _ hcur, lineWords_append_space]
            simp [List.append_assoc]
        · rw [lineWords_no_space _ hcw]
          simp only [List.map_cons, List.filter_cons]
          cases hemp : (cleanChars word).isEmpty
          · simp only [hemp, Bool.not_false, if_true, Bool.false_eq_true, if_false,
              List.singleton_append]
            exact List.Sublist.cons₂ _ hsub
          · simp only [hemp, Bool.not_true, Bool.false_eq_true, if_true, if_false,
              List.nil_append]
            exact hsub

theorem wrapWords_words_total (w : JStr → Option ℚ) (mw : ℚ) (hw : ∀ s, w s ≠ none) :
    ∀ (ws : List JStr) (lines : List JStr) (cur : JStr),
      (∀ t ∈ ws, ' ' ∉ t) →
      (wrapWords w mw lines cur ws).1.flatMap lineWords ++
        lineWords (wrapWords w mw lines cur ws).2 =
      lines.flatMap lineWords ++ lineWords cur ++
        (ws.map cleanChars).filter (fun t => !t.isEmpty) := by
  intro ws
  induction ws with
  | nil =>
    intro lines cur _
    simp [wrapWords]
  | cons word rest ih =>
    intro lines cur h
    have hns : ' ' ∉ word := h word (List.mem_cons_self _ _)
    have hrest : ∀ t ∈ rest, ' ' ∉ t := fun t ht => h t (List.mem_cons_of_mem _ ht)
    have hcw : ' ' ∉ cleanChars word := fun hm => hns (mem_cleanChars _ _ hm)
    cases hww : w (testLineOf cur (cleanChars word)) with
    | none => exact absurd hww (hw _)
    | some tw =>
      simp only [wrapWords, hww]
      split
      · rw [ih _ _ hrest]
        rw [List.flatMap_append]
        simp only [List.flatMap_cons, List.flatMap_nil, List.append_nil]
        rw [lineWords_no_space _ hcw]
        simp only [List.map_cons, List.filter_cons]
        cases hemp : (cleanChars word).isEmpty <;>
          simp [hemp, List.append_assoc]
      · rw [ih _ _ hrest]
        by_cases hcur : cur = []
        · rw [hcur, testLineOf_nil, lineWords_no_space _ hcw]
          simp only [lineWords_nil, List.map_cons, List.filter_cons]
          cases hemp : (cleanChars word).isEmpty <;> simp [hemp]
        · rw [testLineOf_of_ne _ _ hcur, lineWords_append_space,
            lineWords_no_space _ hcw]
          simp only [List.map_cons, List.filter_cons]
          cases hemp : (cleanChars word).isEmpty <;>
            simp [hemp, List.append_assoc]

theorem wrapWords_bound (w : JStr → Option ℚ) (mw : ℚ) (P : JStr → Prop) :
    ∀ (ws : List JStr) (lines : List JStr) (cur : JStr),
      (∀ t ∈ ws, P t) →
      (∀ l ∈ lines, (∃ tw, w l = some tw ∧ tw ≤ mw) ∨ ∃ word, P word ∧ l = cleanChars word) →
      (cur = [] ∨ (∃ tw, w cur = some tw ∧ tw ≤ mw) ∨
        ∃ word, P word ∧ cur = cleanChars word) →
      (∀ l ∈ (wrapWords w mw lines cur ws).1,
          (∃ tw, w l = some tw ∧ tw ≤ mw) ∨ ∃ word, P word ∧ l = cleanChars word) ∧
        ((wrapWords w mw lines cur ws).2 = [] ∨
          (∃ tw, w (wrapWords w mw lines cur ws).2 = some tw ∧ tw ≤ mw) ∨
          ∃ word, P word ∧ (wrapWords w mw lines cur ws).2 = cleanChars word) := by
  intro ws
  induction ws with
  | nil =>
    intro lines cur _ hl hc
    simp only [wrapWords]
    exact ⟨hl, hc⟩
  | cons word rest ih =>
    intro lines cur h hl hc
    have hP : P word := h word (List.mem_cons_self _ _)
    have hrest : ∀ t ∈ rest, P t := fun t ht => h t (List.mem_cons_of_mem _ ht)
    cases hww : w (testLineOf cur (cleanChars word)) with
    | none =>
      simp only [wrapWords, hww]
      exact ih _ _ hrest hl hc
    | some tw =>
      simp only [wrapWords, hww]
      split
      · next hcond =>
        refine ih _ _ hrest ?_ (Or.inr (Or.inr ⟨word, hP, rfl⟩))
        intro l hlm
        rcases List.mem_append.1 hlm with hm | hm
        · exact hl l hm
        · rcases List.mem_singleton.1 hm with rfl
          rcases hc with hnil | hgood
          · exact absurd hnil hcond.2
          · exact hgood
      · next hcond =>
        refine ih _ _ hrest hl ?_
        by_cases hcur : cur = []
        · rw [hcur, testLineOf_nil]
          exact Or.inr (Or.inr ⟨word, hP, rfl⟩)
        · have hle : ¬ mw < tw := fun hlt => hcond ⟨hlt, hcur⟩
          exact Or.inr (Or.inl ⟨tw, hww, not_lt.1 hle⟩)

theorem wrapWords_join (w : JStr → Option ℚ) (mw : ℚ) (hw : ∀ s, w s ≠ none) :
    ∀ (ws : List JStr) (lines : List JStr) (cur : JStr),
      cur ≠ [] →
      (∀ t ∈ ws, cleanChars t ≠ []) →
      (wrapWords w mw lines cur ws).2 ≠ [] ∧
      joinSep ' ' ((wrapWords w mw lines cur ws).1 ++ [(wrapWords w mw lines cur ws).2]) =
        joinSep ' ' (lines ++ [cur]) ++ ws.flatMap (fun t => ' ' :: cleanChars t) := by
  intro ws
  induction ws with
  | nil =>
    intro lines cur hcur _
    simp only [wrapWords]
    exact ⟨hcur, by simp⟩
  | cons word rest ih =>
    intro lines cur hcur h
    have hwne : cleanChars word ≠ [] := h word (List.mem_cons_self _ _)
    have hrest : ∀ t ∈ rest, cleanChars t ≠ [] := fun t ht => h t (List.mem_cons_of_mem _ ht)
    cases hww : w (testLineOf cur (cleanChars word)) with
    | none => exact absurd hww (hw _)
    | some tw =>
      simp only [wrapWords, hww]
      split
      · obtain ⟨h1, h2⟩ := ih (lines ++ [cur]) (cleanChars word) hwne hrest
        refine ⟨h1, ?_⟩
        rw [h2, joinSep_append_singleton ' ' (lines ++ [cur]) (cleanChars word) (by simp)]
        simp [List.append_assoc]
      · have htl : testLineOf cur (cleanChars word) = cur ++ ' ' :: cleanChars word :=
          testLineOf_of_ne _ _ hcur
        have htl_ne : testLineOf cur (cleanChars word) ≠ [] := by
          rw [htl]
          cases cur with
          | nil => exact absurd rfl hcur
          | cons a b => simp
        obtain ⟨h1, h2⟩ := ih lines _ htl_ne hrest
        refine ⟨h1, ?_⟩
        rw [h2, htl, joinSep_append_extend ' ' lines cur (' ' :: cleanChars word)]
        simp [List.append_assoc]

/-! ## Paragraph- and text-level wrapping lemmas -/

theorem wrapParagraph_words_sublist (w : JStr → Option ℚ) (mw : ℚ) (p : JStr) :
    ((wrapParagraph w mw p).flatMap lineWords).Sublist
      (if isBlank p then []
       else ((jsSplit ' ' p).map cleanChars).filter (fun t => !t.isEmpty)) := by
  by_cases hb : isBlank p = true
  · simp [wrapParagraph, hb, lineWords_nil]
  · have hb2 : isBlank p = false := by
      cases h : isBlank p
      · rfl
      · exact absurd h hb
    obtain ⟨sub, heq, hsub⟩ :=
      wrapWords_words_sublist w mw (jsSplit ' ' p) [] [] (mem_jsSplit_no_sep ' ' p)
    simp only [List.flatMap_nil, lineWords_nil, List.append_nil, List.nil_append] at heq
    simp only [wrapParagraph, hb2, Bool.false_eq_true, if_false]
    split
    · rw [List.flatMap_append]
      simp only [List.flatMap_cons, List.flatMap_nil, List.append_nil]
      rw [heq]
      exact hsub
    · next h2 =>
      rw [not_not] at h2
      rw [h2, lineWords_nil, List.append_nil] at heq
      rw [heq]
      exact hsub

theorem wrapParagraph_words_total (w : JStr → Option ℚ) (mw : ℚ) (p : JStr)
    (hw : ∀ s, w s ≠ none) :
    (wrapParagraph w mw p).flatMap lineWords =
      if isBlank p then []
      else ((jsSplit ' ' p).map cleanChars).filter (fun t => !t.isEmpty) := by
  by_cases hb : isBlank p = true
  · simp [wrapParagraph, hb, lineWords_nil]
  · have hb2 : isBlank p = false := by
      cases h : isBlank p
      · rfl
      · exact absurd h hb
    have key := wrapWords_words_total w mw hw (jsSplit ' ' p) [] [] (mem_jsSplit_no_sep ' ' p)
    simp only [List.flatMap_nil, lineWords_nil, List.nil_append] at key
    simp only [wrapParagraph, hb2, Bool.false_eq_true, if_false]
    split
    · rw [List.flatMap_append]
      simp only [List.flatMap_cons, List.flatMap_nil, List.append_nil]
      exact key
    · next h2 =>
      rw [not_not] at h2
      rw [h2, lineWords_nil, List.append_nil] at key
      exact key

theorem wrapText_words_sublist (w : JStr → Option ℚ) (pw m : ℚ) (text : JStr) :
    ((wrapText w text pw m).flatMap lineWords).Sublist (textWords text) := by
  unfold wrapText textWords
  generalize splitParagraphs text = ps
  induction ps with
  | nil => simp
  | cons p ps ih =>
    simp only [List.flatMap_cons, List.flatMap_append]
    exact List.Sublist.append (wrapParagraph_words_sublist w (pw - 2 * m) p) ih

theorem wrapText_words_total (w : JStr → Option ℚ) (pw m : ℚ) (text : JStr)
    (hw : ∀ s, w s ≠ none) :
    (wrapText w text pw m).flatMap lineWords = textWords text := by
  unfold wrapText textWords
  generalize splitParagraphs text = ps
  induction ps with
  | nil => rfl
  | cons p ps ih =>
    simp only [List.flatMap_cons, List.flatMap_append]
    rw [wrapParagraph_words_total w _ p hw, ih]

theorem wrapParagraph_bound (w : JStr → Option ℚ) (mw : ℚ) (p : JStr) :
    ∀ line ∈ wrapParagraph w mw p,
      line = [] ∨ (∃ tw, w line = some tw ∧ tw ≤ mw) ∨
        ∃ word ∈ jsSplit ' ' p, line = cleanChars word := by
  intro line hline
  by_cases hb : isBlank p = true
  · simp [wrapParagraph, hb] at hline
    exact Or.inl hline
  · have hb2 : isBlank p = false := by
      cases h : isBlank p
      · rfl
      · exact absurd h hb
    simp only [wrapParagraph, hb2, Bool.false_eq_true, if_false] at hline
    have key := wrapWords_bound w mw (fun t => t ∈ jsSplit ' ' p) (jsSplit ' ' p) [] []
      (fun t ht => ht) (by simp) (Or.inl rfl)
    rcases key with ⟨klines, kcur⟩
    split at hline
    · rcases List.mem_append.1 hline with hm | hm
      · rcases klines line hm with h | ⟨word, hwm, rfl⟩
        · exact Or.inr (Or.inl h)
        · exact Or.inr (Or.inr ⟨word, hwm, rfl⟩)
      · next hne =>
        rcases List.mem_singleton.1 hm with rfl
        rcases kcur with h | h | ⟨word, hwm, hcl⟩
        · exact absurd h hne
        · exact Or.inr (Or.inl h)
        · exact Or.inr (Or.inr ⟨word, hwm, hcl⟩)
    · rcases klines line hline with h | ⟨word, hwm, rfl⟩
      · exact Or.inr (Or.inl h)
      · exact Or.inr (Or.inr ⟨word, hwm, rfl⟩)

theorem wrapParagraph_join (w : JStr → Option ℚ) (mw : ℚ) (p : JStr)
    (hw : ∀ s, w s ≠ none)
    (hb : isBlank p = false)
    (hwords : ∀ t ∈ jsSplit ' ' p, cleanChars t ≠ []) :
    joinSep ' ' (wrapParagraph w mw p) = cleanChars p := by
  cases hsplit : jsSplit ' ' p with
  | nil => exact absurd hsplit (jsSplit_ne_nil ' ' p)
  | cons w0 ws =>
    have hw0 : cleanChars w0 ≠ [] := hwords w0 (hsplit ▸ List.mem_cons_self w0 ws)
    have hws : ∀ t ∈ ws, cleanChars t ≠ [] :=
      fun t ht => hwords t (hsplit ▸ List.mem_cons_of_mem w0 ht)
    obtain ⟨tw0, htw0⟩ := Option.ne_none_iff_exists'.mp (hw (cleanChars w0))
    have hstep : wrapWords w mw [] [] (w0 :: ws) =
        wrapWords w mw [] (cleanChars w0) ws := by
      simp [wrapWords, testLineOf_nil, htw0]
    obtain ⟨h1, h2⟩ := wrapWords_join w mw hw ws [] (cleanChars w0) hw0 hws
    have hclean : cleanChars p = joinSep ' ' ((jsSplit ' ' p).map cleanChars) := by
      conv_lhs => rw [← joinSep_jsSplit ' ' p]
      exact cleanChars_joinSep ' ' (by decide) _
    simp only [wrapParagraph, hb, Bool.false_eq_true, if_false, hsplit, hstep]
    rw [if_pos h1, h2]
    rw [hclean, hsplit]
    simp only [List.map_cons]
    rw [joinSep_cons_flat]
    simp only [List.nil_append, List.flatMap_map, joinSep]

theorem wrapText_join (w : JStr → Option ℚ) (pw m : ℚ) (text : JStr)
    (hw : ∀ s, w s ≠ none)
    (hcr : '\r' ∉ text)
    (hp : ∀ p ∈ jsSplit '\n' text,
      p = [] ∨ (isBlank p = false ∧ ∀ t ∈ jsSplit ' ' p, cleanChars t ≠ [])) :
    reconstructText w pw m text = cleanChars text := by
  have hsp : splitParagraphs text = jsSplit '\n' text := by
    unfold splitParagraphs
    have : ∀ ls : List JStr, (∀ q ∈ ls, dropTrailingCR q = q) → mapInit dropTrailingCR ls = ls := by
      intro ls
      induction ls with
      | nil => intro _; rfl
      | cons a l ihl =>
        intro hall
        cases l with
        | nil => rfl
        | cons b l2 =>
          simp only [mapInit]
          rw [hall a (List.mem_cons_self _ _), ihl (fun q hq => hall q (List.mem_cons_of_mem _ hq))]
    refine this _ ?_
    intro q hq
    unfold dropTrailingCR
    split
    · next hlast =>
      exfalso
      have hmem : '\r' ∈ q := by
        rcases List.mem_getLast?_eq_getLast (show '\r' ∈ q.getLast? from hlast) with ⟨hne, hx⟩
        rw [hx]
        exact List.getLast_mem hne
      exact hcr (mem_of_mem_jsSplit '\n' text q hq '\r' hmem)
    · rfl
  unfold reconstructText
  rw [hsp]
  have hmap : (jsSplit '\n' text).map (fun p => joinSep ' ' (wrapParagraph w (pw - 2 * m) p)) =
      (jsSplit '\n' text).map cleanChars := by
    apply List.map_congr_left
    intro p hpm
    rcases hp p hpm with rfl | ⟨hb, hwp⟩
    · rfl
    · exact wrapParagraph_join w (pw - 2 * m) p hw hb hwp
  rw [hmap]
  conv_rhs => rw [← joinSep_jsSplit '\n' text]
  exact (cleanChars_joinSep '\n' (by decide) _).symm

/-! ## Claims C1, C2, C3: text wrapping -/

/-- C1 (amended): for every (partial) width metric and input text, every
line returned by `wrapText` either is empty, or has a measured width at
most `maxWidth = pageWidth - 2 * margin`, or consists of a single
sanitised word of the input — a word whose width alone exceeds `maxWidth`
is placed unbroken on a line of its own, which is the only way a line can
exceed the limit. -/
theorem wrapText_line_fits_or_single_word (w : JStr → Option ℚ) (pw m : ℚ)
    (text : JStr) (line : JStr) (h : line ∈ wrapText w text pw m) :
    line = [] ∨ (∃ tw, w line = some tw ∧ tw ≤ pw - 2 * m) ∨
      ∃ p ∈ splitParagraphs text, ∃ word ∈ jsSplit ' ' p, line = cleanChars word := by
  unfold wrapText at h
  rcases List.mem_flatMap.1 h with ⟨p, hp, hl⟩
  rcases wrapParagraph_bound w (pw - 2 * m) p line hl with h1 | h1 | ⟨word, hwd, h1⟩
  · exact Or.inl h1
  · exact Or.inr (Or.inl h1)
  · exact Or.inr (Or.inr ⟨p, hp, word, hwd, h1⟩)

theorem wrapText_line_fits_or_single_word_witness :
    ['a'] ∈ wrapText (fun _ => (some 0 : Option ℚ)) ['a'] 0 0 ∧
      (['a'] = ([] : JStr) ∨
        (∃ tw, (fun _ => (some 0 : Option ℚ)) ['a'] = some tw ∧ tw ≤ 0 - 2 * 0) ∨
        ∃ p ∈ splitParagraphs ['a'], ∃ word ∈ jsSplit ' ' p, ['a'] = cleanChars word) := by
  have hmem : ['a'] ∈ wrapText (fun _ => (some 0 : Option ℚ)) ['a'] 0 0 := by
    simp [wrapText, splitParagraphs, jsSplit, mapInit, dropTrailingCR, wrapParagraph,
      isBlank, isJsWhitespace, wrapWords, testLineOf, cleanChars, isStrippedChar]
  exact ⟨hmem,
    wrapText_line_fits_or_single_word (fun _ => (some 0 : Option ℚ)) 0 0 ['a'] ['a'] hmem⟩

/-- C1 counterexample: under the (spec-modelled) partial Helvetica metric
at `TEXT_SIZE = 12`, the input consisting of one 50-character word of
`'W'`s is returned by `wrapText` as a single line; the word is
WinAnsi-encodable, so its width is measured, and that width
(50 x 944 x 12 / 1000 = 566.4) exceeds
`maxWidth = PAGE_WIDTH - 2 * MARGIN = 495.28`: a long word is never split,
so the claim that every line fits is false. -/
theorem wrapText_overflow_counterexample :
    List.replicate 50 'W' ∈
        wrapText (fun l => helveticaMetric l TEXT_SIZE) (List.replicate 50 'W')
          PAGE_WIDTH MARGIN ∧
      helveticaMetric (List.replicate 50 'W') TEXT_SIZE =
        some (helveticaWidthAtSize (List.replicate 50 'W') TEXT_SIZE) ∧
      ¬ helveticaWidthAtSize (List.replicate 50 'W') TEXT_SIZE ≤ PAGE_WIDTH - 2 * MARGIN := by
  have h5 : (List.replicate 50 'W').all isWinAnsiEncodable = true := by decide
  have h6 : helveticaMetric (List.replicate 50 'W') TEXT_SIZE =
      some (helveticaWidthAtSize (List.replicate 50 'W') TEXT_SIZE) := by
    unfold helveticaMetric
    rw [if_pos h5]
  refine ⟨?_, h6, ?_⟩
  · have h1 : jsSplit '\n' (List.replicate 50 'W') = [List.replicate 50 'W'] :=
      jsSplit_of_no_sep '\n' _ (by decide)
    have h2 : jsSplit ' ' (List.replicate 50 'W') = [List.replicate 50 'W'] :=
      jsSplit_of_no_sep ' ' _ (by decide)
    have h3 : cleanChars (List.replicate 50 'W') = List.replicate 50 'W' := by decide
    have h4 : isBlank (List.replicate 50 'W') = false := by decide
    simp only [wrapText, splitParagraphs, h1, mapInit, wrapParagraph, h2, h4, wrapWords,
      testLineOf, h3, h6, List.flatMap_cons, List.flatMap_nil, List.append_nil, ne_eq,
      not_true_eq_false, and_false, if_false, Bool.false_eq_true]
    decide
  · have hsum : (List.map helveticaAfmWidth (List.replicate 50 'W')).sum = 47200 := by decide
    unfold helveticaWidthAtSize TEXT_SIZE PAGE_WIDTH MARGIN
    rw [hsum]
    norm_num

/-- C2 (amended): for every (partial) width metric and input text, the
space-separated tokens of the lines produced by `wrapText`, flattened in
order, form an order-preserving subsequence of the sanitised word sequence
of the input — every emitted token is a whole sanitised input word, so no
word is ever broken across two lines, but a word whose width measurement
throws is dropped by the catch; when no measurement throws, the flattened
tokens are exactly the sanitised input words. -/
theorem wrapText_preserves_words (w : JStr → Option ℚ) (pw m : ℚ) (text : JStr) :
    ((wrapText w text pw m).flatMap lineWords).Sublist (textWords text) ∧
      ((∀ s, w s ≠ none) →
        (wrapText w text pw m).flatMap lineWords = textWords text) :=
  ⟨wrapText_words_sublist w pw m text, fun hw => wrapText_words_total w pw m text hw⟩

theorem wrapText_preserves_words_witness :
    ((wrapText (fun _ => (some 0 : Option ℚ)) ['a'] 0 0).flatMap lineWords).Sublist
        (textWords ['a']) ∧
      (wrapText (fun _ => (some 0 : Option ℚ)) ['a'] 0 0).flatMap lineWords =
        textWords ['a'] := by
  have h := wrapText_preserves_words (fun _ => (some 0 : Option ℚ)) 0 0 ['a']
  exact ⟨h.1, h.2 (fun s => Option.some_ne_none 0)⟩

/-- C2 counterexample: with a metric that throws on any string containing a
tab — as pdf-lib's WinAnsi Helvetica metric does, the tab surviving the
sanitiser — the word `"a\tb"` of the input `"a\tb c"` is skipped by the
loop's catch, so the output consists of the single line `"c"`: the
flattened tokens differ from the sanitised input word sequence, and the
line is not a contiguous run of all the input's words. -/
theorem wrapText_skipped_word_counterexample :
    (wrapText (fun s => if '\t' ∈ s then none else some 0)
        ['a', '\t', 'b', ' ', 'c'] 0 0).flatMap lineWords ≠
      textWords ['a', '\t', 'b', ' ', 'c'] := by
  have h : wrapText (fun s => if '\t' ∈ s then none else some 0)
      ['a', '\t', 'b', ' ', 'c'] 0 0 = [['c']] := by
    simp [wrapText, splitParagraphs, jsSplit, mapInit, dropTrailingCR, wrapParagraph,
      isBlank, isJsWhitespace, wrapWords, testLineOf, cleanChars, isStrippedChar]
  rw [h]
  decide

/-- C3 (amended): joining the lines of `wrapText` with single spaces and
restoring newlines at paragraph boundaries reproduces the sanitised input,
provided no width measurement throws (the metric is defined on every
string), the text has no carriage returns, and every paragraph either is
empty or is non-blank with every space-separated token non-empty after
sanitising (so no leading, trailing or doubled spaces and no token made
only of stripped characters). -/
theorem wrapText_rejoin (w : JStr → Option ℚ) (pw m : ℚ) (text : JStr)
    (hw : ∀ s, w s ≠ none)
    (hcr : '\r' ∉ text)
    (hp : ∀ p ∈ jsSplit '\n' text,
      p = [] ∨ (isBlank p = false ∧ ∀ t ∈ jsSplit ' ' p, cleanChars t ≠ [])) :
    reconstructText w pw m text = cleanChars text :=
  wrapText_join w pw m text hw hcr hp

theorem wrapText_rejoin_witness :
    reconstructText (fun _ => (some 0 : Option ℚ)) PAGE_WIDTH MARGIN ['a', ' ', 'b'] =
      cleanChars ['a', ' ', 'b'] :=
  wrapText_rejoin (fun _ => (some 0 : Option ℚ)) PAGE_WIDTH MARGIN ['a', ' ', 'b']
    (fun s => Option.some_ne_none 0) (by decide) (by decide)

/-- C3 counterexample: for the input `" a"` (a paragraph with a leading
space), even with a metric that never throws, the only produced line is
`"a"`, so the space-joined reconstruction is `"a"` while the input minus
unsupported characters is `" a"`: the leading space is lost and the
reconstruction property fails. -/
theorem wrapText_rejoin_counterexample :
    reconstructText (fun _ => (some 0 : Option ℚ)) PAGE_WIDTH MARGIN [' ', 'a'] ≠
      cleanChars [' ', 'a'] := by
  have h : reconstructText (fun _ => (some 0 : Option ℚ)) PAGE_WIDTH MARGIN [' ', 'a'] =
      ['a'] := by
    simp [reconstructText, splitParagraphs, jsSplit, mapInit, dropTrailingCR, wrapParagraph,
      isBlank, isJsWhitespace, wrapWords, testLineOf, cleanChars, isStrippedChar, joinSep]
  rw [h]
  decide

/-! ## Claims C4, C10: pagination and draw bounds in `addSection` -/

theorem lineStep_newPage (ph m : ℚ) :
    ∀ (ls : List JStr) (y yb ya : ℚ),
      Op.newPage yb ya ∈ (lineStep ph m y ls).1 → ya = ph - m ∧ yb < m + 20 := by
  intro ls
  induction ls with
  | nil =>
    intro y yb ya h
    simp [lineStep] at h
  | cons line rest ih =>
    intro y yb ya h
    simp only [lineStep, List.mem_append] at h
    rcases h with (h1 | h1) | h1
    · by_cases hbr : y < m + 20
      · rw [if_pos hbr] at h1
        have heq := List.mem_singleton.1 h1
        injection heq with e1 e2
        subst e1
        subst e2
        exact ⟨rfl, hbr⟩
      · rw [if_neg hbr] at h1
        simp at h1
    · by_cases hbl : isBlank line = true
      · rw [if_pos hbl] at h1
        simp at h1
      · rw [if_neg hbl] at h1
        have heq := List.mem_singleton.1 h1
        exact absurd heq (by simp)
    · exact ih _ _ _ h1

theorem lineStep_draw (ph m : ℚ) (h20 : m + 20 ≤ ph - m) :
    ∀ (ls : List JStr) (y x yd sz : ℚ) (b : Bool) (t : JStr),
      Op.draw x yd sz b t ∈ (lineStep ph m y ls).1 →
      sz = TEXT_SIZE ∧ m + 20 ≤ yd := by
  intro ls
  induction ls with
  | nil =>
    intro y x yd sz b t h
    simp [lineStep] at h
  | cons line rest ih =>
    intro y x yd sz b t h
    simp only [lineStep, List.mem_append] at h
    rcases h with (h1 | h1) | h1
    · by_cases hbr : y < m + 20
      · rw [if_pos hbr] at h1
        exact absurd (List.mem_singleton.1 h1) (by simp)
      · rw [if_neg hbr] at h1
        simp at h1
    · by_cases hbl : isBlank line = true
      · rw [if_pos hbl] at h1
        simp at h1
      · rw [if_neg hbl] at h1
        have heq := List.mem_singleton.1 h1
        injection heq with e1 e2 e3 e4 e5
        refine ⟨e3, ?_⟩
        subst e2
        by_cases hbr : y < m + 20
        · rw [if_pos hbr]
          exact h20
        · rw [if_neg hbr]
          exact not_lt.1 hbr
    · exact ih _ _ _ _ _ _ h1

/-- C4: during the rendering of a section, (i) every page break resets the
cursor to `pageHeight - margin`; (ii) a page break opens the section
exactly when the incoming cursor is below `margin + 100` (the room needed
for a heading), and it records that cursor; (iii) every other page break of
the section happens in the line loop, only when the cursor before the
break is below `margin + 20` (the room needed for a line); and (iv),
conversely, whenever the line loop reaches a line with the cursor below
`margin + 20`, a page break recording that cursor and resetting to
`pageHeight - margin` is started before anything else is emitted. -/
theorem addSection_pagination (pw ph m : ℚ) (w : JStr → Option ℚ) (y0 : ℚ)
    (heading content : JStr) :
    (∀ yb ya, Op.newPage yb ya ∈ (addSectionRun pw ph m w y0 heading content).1 →
        ya = ph - m) ∧
    ((addSectionRun pw ph m w y0 heading content).1.head? =
        some (Op.newPage y0 (ph - m)) ↔ y0 < m + 100) ∧
    (∀ yb ya, Op.newPage yb ya ∈ (addSectionRun pw ph m w y0 heading content).1.tail →
        ya = ph - m ∧ yb < m + 20) ∧
    (∀ (y : ℚ) (line : JStr) (rest : List JStr), y < m + 20 →
        (lineStep ph m y (line :: rest)).1.head? = some (Op.newPage y (ph - m))) := by
  have hline : ∀ (y : ℚ) (line : JStr) (rest : List JStr), y < m + 20 →
      (lineStep ph m y (line :: rest)).1.head? = some (Op.newPage y (ph - m)) := by
    intro y line rest hy
    simp only [lineStep]
    rw [if_pos hy, if_pos hy]
    simp
  unfold addSectionRun
  by_cases hbr : y0 < m + 100
  · simp only [if_pos hbr, List.singleton_append]
    refine ⟨?_, ⟨fun _ => hbr, fun _ => rfl⟩, ?_, hline⟩
    · intro yb ya h
      rcases List.mem_cons.1 h with heq | h2
      · exact (Op.newPage.inj heq).2
      rcases List.mem_cons.1 h2 with heq | h3
      · exact absurd heq (by simp)
      · exact (lineStep_newPage ph m _ _ _ _ h3).1
    · intro yb ya h
      rcases List.mem_cons.1 h with heq | h3
      · exact absurd heq (by simp)
      · exact lineStep_newPage ph m _ _ _ _ h3
  · simp only [if_neg hbr, List.nil_append]
    refine ⟨?_, ⟨fun hh => ?_, fun hh => absurd hh hbr⟩, ?_, hline⟩
    · intro yb ya h
      rcases List.mem_cons.1 h with heq | h3
      · exact absurd heq (by simp)
      · exact (lineStep_newPage ph m _ _ _ _ h3).1
    · rw [List.head?_cons] at hh
      exact absurd (Option.some.inj hh) (by simp)
    · intro yb ya h
      rw [List.tail_cons] at h
      exact lineStep_newPage ph m _ _ _ _ h

theorem addSection_pagination_witness :
    (addSectionRun PAGE_WIDTH PAGE_HEIGHT MARGIN (fun _ => none) 0 ['H'] ['x']).1.head? =
      some (Op.newPage 0 (PAGE_HEIGHT - MARGIN)) :=
  (addSection_pagination PAGE_WIDTH PAGE_HEIGHT MARGIN (fun _ => none) 0 ['H'] ['x']).2.1.mpr
    (by norm_num [MARGIN])

/-- C10: in `addSection`, provided the page geometry leaves at least the
heading room below the top margin (true of the A4 configuration), every
text draw is issued at a cursor of at least `margin + 20`, and the heading
draw (the only draw at `HEADING_SIZE`) at a cursor of at least
`margin + 100`: no section text is drawn inside the bottom margin. -/
theorem addSection_draw_above_margin (pw ph m : ℚ) (w : JStr → Option ℚ) (y0 : ℚ)
    (heading content : JStr) (hgeom : m + 100 ≤ ph - m) :
    ∀ x yd sz b t,
      Op.draw x yd sz b t ∈ (addSectionRun pw ph m w y0 heading content).1 →
      m + 20 ≤ yd ∧ (sz = HEADING_SIZE → m + 100 ≤ yd) := by
  have h20 : m + 20 ≤ ph - m := le_trans (by linarith) hgeom
  have hts : ¬ (TEXT_SIZE = HEADING_SIZE) := by norm_num [TEXT_SIZE, HEADING_SIZE]
  unfold addSectionRun
  by_cases hbr : y0 < m + 100
  · simp only [if_pos hbr, List.singleton_append]
    intro x yd sz b t h
    rcases List.mem_cons.1 h with heq | h2
    · exact absurd heq (by simp)
    rcases List.mem_cons.1 h2 with heq | h3
    · injection heq with e1 e2 e3 e4 e5
      subst e2
      exact ⟨h20, fun _ => hgeom⟩
    · obtain ⟨hsz, hyd⟩ := lineStep_draw ph m h20 _ _ _ _ _ _ _ h3
      exact ⟨hyd, fun hh => absurd (hsz.symm.trans hh) hts⟩
  · simp only [if_neg hbr, List.nil_append]
    intro x yd sz b t h
    have h100 : m + 100 ≤ y0 := not_lt.1 hbr
    rcases List.mem_cons.1 h with heq | h3
    · injection heq with e1 e2 e3 e4 e5
      subst e2
      exact ⟨by linarith, fun _ => h100⟩
    · obtain ⟨hsz, hyd⟩ := lineStep_draw ph m h20 _ _ _ _ _ _ _ h3
      exact ⟨hyd, fun hh => absurd (hsz.symm.trans hh) hts⟩

theorem addSection_draw_above_margin_witness :
    MARGIN + 20 ≤ MARGIN + 100 ∧
      (HEADING_SIZE = HEADING_SIZE → MARGIN + 100 ≤ MARGIN + 100) := by
  refine addSection_draw_above_margin PAGE_WIDTH PAGE_HEIGHT MARGIN (fun _ => none)
    (MARGIN + 100) ['H'] ['x'] (by norm_num [MARGIN, PAGE_HEIGHT]) MARGIN (MARGIN + 100)
    HEADING_SIZE true (cleanChars ['H']) ?_
  unfold addSectionRun
  simp only [lt_self_iff_false, if_false, List.nil_append]
  exact List.mem_cons_self _ _

/-! ## Claims C5, C6, C9: embedding, determinism, error wrapping -/

theorem embedUploadedPDF_ok (env : EmbedEnv) (pw ph m : ℚ) (w : JStr → Option ℚ) (y : ℚ)
    (filePath : JStr) :
    ∃ r, embedUploadedPDF env pw ph m w y filePath = .ok r := by
  unfold embedUploadedPDF
  rcases env with ⟨acc, rl, ld, cp⟩
  cases acc with
  | error e => exact ⟨_, rfl⟩
  | ok u =>
    cases rl with
    | error e => exact ⟨_, rfl⟩
    | ok n =>
      cases n with
      | zero => exact ⟨_, rfl⟩
      | succ k =>
        cases ld with
        | error e => exact ⟨_, rfl⟩
        | ok pc =>
          cases pc with
          | zero => exact ⟨_, rfl⟩
          | succ j =>
            cases cp with
            | error e => exact ⟨_, rfl⟩
            | ok u2 => exact ⟨_, rfl⟩

/-- C5: for every outcome of the filesystem and pdf-lib effects,
`embedUploadedPDF` returns normally (`.ok`, so the primary generation
continues), and either — after the "Attached Resume/Document" divider
section — appends one copied page for every page of the uploaded document,
or (on an access/read failure, an empty file, a load failure, a zero-page
document, or a copy failure) adds an explanatory "Attached Document"
section instead. -/
theorem embedUploadedPDF_nonfatal (env : EmbedEnv) (pw ph m : ℚ) (w : JStr → Option ℚ)
    (y : ℚ) (filePath : JStr) :
    ∃ ops y',
      embedUploadedPDF env pw ph m w y filePath = .ok (ops, y') ∧
      ((∃ msg, ops = (addSectionRun pw ph m w y (jstr "Attached Document") msg).1 ∧
          y' = (addSectionRun pw ph m w y (jstr "Attached Document") msg).2) ∨
        (∃ n, 0 < n ∧ env.load = .ok n ∧ env.copy = .ok () ∧
          ops = (addSectionRun pw ph m w y (jstr "Attached Resume/Document")
              (jstr "The following " ++ jstr (toString n) ++
                jstr " page(s) contain the uploaded document:")).1 ++
            (List.range n).map Op.copyPage ∧
          y' = (addSectionRun pw ph m w y (jstr "Attached Resume/Document")
              (jstr "The following " ++ jstr (toString n) ++
                jstr " page(s) contain the uploaded document:")).2)) := by
  unfold embedUploadedPDF
  rcases env with ⟨acc, rl, ld, cp⟩
  cases acc with
  | error e => exact ⟨_, _, rfl, Or.inl ⟨_, rfl, rfl⟩⟩
  | ok u =>
    cases rl with
    | error e => exact ⟨_, _, rfl, Or.inl ⟨_, rfl, rfl⟩⟩
    | ok n =>
      cases n with
      | zero => exact ⟨_, _, rfl, Or.inl ⟨_, rfl, rfl⟩⟩
      | succ k =>
        cases ld with
        | error e => exact ⟨_, _, rfl, Or.inl ⟨_, rfl, rfl⟩⟩
        | ok pc =>
          cases pc with
          | zero => exact ⟨_, _, rfl, Or.inl ⟨_, rfl, rfl⟩⟩
          | succ j =>
            cases cp with
            | error e => exact ⟨_, _, rfl, Or.inl ⟨_, rfl, rfl⟩⟩
            | ok u2 =>
              exact ⟨_, _, rfl,
                Or.inr ⟨j + 1, Nat.succ_pos j, rfl, rfl, rfl, rfl⟩⟩

theorem embedStage_ok (s : Submission) (env : GenEnv) (w : JStr → Option ℚ) :
    ∃ oy, embedStage s env w = .ok oy := by
  unfold embedStage
  by_cases ht : jsTruthy s.uploadedFilePath = true
  · rw [if_pos ht]
    obtain ⟨r, hr⟩ := embedUploadedPDF_ok env.embed PAGE_WIDTH PAGE_HEIGHT MARGIN w
      (contentRun s w).2 (s.uploadedFilePath.getD [])
    rw [hr]
    exact ⟨_, rfl⟩
  · rw [if_neg ht]
    exact ⟨_, rfl⟩

theorem savePipeline_cases (env : GenEnv) (ops : List Op) (y : ℚ) (p : JStr) :
    (∃ r, savePipeline env ops y p = .ok r) ∨
    (∃ msg, savePipeline env ops y p = .error (.app msg 500)) ∨
    (∃ e, savePipeline env ops y p = .error (.raw e)) := by
  unfold savePipeline verifyStep
  rcases env with ⟨emb, sv, mk, wr, va, vr⟩
  cases sv with
  | error e => exact Or.inr (Or.inr ⟨e, rfl⟩)
  | ok len =>
    cases len with
    | zero => exact Or.inr (Or.inl ⟨_, rfl⟩)
    | succ k =>
      cases mk with
      | error e => exact Or.inr (Or.inr ⟨e, rfl⟩)
      | ok u =>
        cases wr with
        | error e => exact Or.inr (Or.inr ⟨e, rfl⟩)
        | ok u2 =>
          cases va with
          | error e => exact Or.inr (Or.inl ⟨_, rfl⟩)
          | ok u3 =>
            cases vr with
            | error e => exact Or.inr (Or.inl ⟨_, rfl⟩)
            | ok n =>
              cases n with
              | zero => exact Or.inr (Or.inl ⟨_, rfl⟩)
              | succ j => exact Or.inl ⟨_, rfl⟩

/-- C6: the page count and the drawn text content of a `generatePDF` run
are functions of the submission, the environment and the metric alone:
they do not depend on the save-time metadata (the timestamps and document
id pdf-lib embeds into the bytes), the only run-specific input, so two
runs on the same submission input agree on both. -/
theorem generatePDF_deterministic (s : Submission) (env : GenEnv) (w : JStr → Option ℚ)
    (m1 m2 : ℕ) :
    pageCountOf (generatePDFRun s env w m1) = pageCountOf (generatePDFRun s env w m2) ∧
      textContentOf (generatePDFRun s env w m1) = textContentOf (generatePDFRun s env w m2) := by
  unfold generatePDFRun
  cases generatePDFBody s env w with
  | ok r =>
    obtain ⟨ops, y, len, p⟩ := r
    exact ⟨rfl, rfl⟩
  | error e =>
    cases e with
    | app msg c => exact ⟨rfl, rfl⟩
    | raw e2 =>
      cases e2 with
      | error msg => exact ⟨rfl, rfl⟩
      | nonError => exact ⟨rfl, rfl⟩

/-- C9: every error escaping `generatePDF` or `generateSimplePDF` is an
`ApplicationError` with statusCode 500: internal `ApplicationError`s are
thrown with 500 and rethrown as-is, and any other thrown value is wrapped
into an `ApplicationError` with statusCode 500 by the outer `catch`, so a
caller never observes a raw library or filesystem error. -/
theorem generation_errors_wrapped_500 (s : Submission) (env : GenEnv)
    (w : JStr → Option ℚ) (mt : ℕ) (s2 : Submission) (envS : SimpleEnv) :
    ((∃ r, generatePDFRun s env w mt = .ok r) ∨
      (∃ msg, generatePDFRun s env w mt = .error (.app msg 500))) ∧
    ((∃ r, generateSimplePDFRun s2 envS = .ok r) ∨
      (∃ msg, generateSimplePDFRun s2 envS = .error (.app msg 500))) := by
  constructor
  · obtain ⟨⟨ops, y⟩, hes⟩ := embedStage_ok s env w
    have hbody : generatePDFBody s env w =
        savePipeline env ops y (jstr "uploads/generated/application-" ++ s.id ++ jstr ".pdf") := by
      unfold generatePDFBody
      rw [hes]
    rcases savePipeline_cases env ops y
        (jstr "uploads/generated/application-" ++ s.id ++ jstr ".pdf") with
      ⟨r, hr⟩ | ⟨msg, hr⟩ | ⟨e, hr⟩
    · obtain ⟨a, b, c, d⟩ := r
      exact Or.inl ⟨_, by unfold generatePDFRun; rw [hbody, hr]⟩
    · exact Or.inr ⟨msg, by unfold generatePDFRun; rw [hbody, hr]⟩
    · cases e with
      | error msg =>
        exact Or.inr ⟨_, by unfold generatePDFRun; rw [hbody, hr]⟩
      | nonError =>
        exact Or.inr ⟨_, by unfold generatePDFRun; rw [hbody, hr]⟩
  · unfold generateSimplePDFRun generateSimplePDFBody
    rcases envS with ⟨sv, mk, wr⟩
    cases sv with
    | error e =>
      cases e with
      | error msg => exact Or.inr ⟨_, rfl⟩
      | nonError => exact Or.inr ⟨_, rfl⟩
    | ok len =>
      cases len with
      | zero => exact Or.inr ⟨_, rfl⟩
      | succ k =>
        cases mk with
        | error e =>
          cases e with
          | error msg => exact Or.inr ⟨_, rfl⟩
          | nonError => exact Or.inr ⟨_, rfl⟩
        | ok u =>
          cases wr with
          | error e =>
            cases e with
            | error msg => exact Or.inr ⟨_, rfl⟩
            | nonError => exact Or.inr ⟨_, rfl⟩
          | ok u2 => exact Or.inl ⟨_, rfl⟩

/-! ## Claims C7, C8: the API handlers -/

/-- C7: for every outcome of the submit handler's effects, the sequence of
successful record operations is one of: nothing (validation or an early
effect failed before the record existed), creation at the non-terminal
status `processing`, or creation at `processing` followed by exactly one
update, to `failed` when `generatePDF` threw and to `completed` when it
succeeded — the record never moves in any other order. -/
theorem POST_status_machine (env : PostEnv) :
    (POSTRun env).1 = [] ∨
    (POSTRun env).1 = [DbEvent.create STATUS_PROCESSING] ∨
    (POSTRun env).1 = [DbEvent.create STATUS_PROCESSING, DbEvent.update STATUS_FAILED] ∨
    (POSTRun env).1 = [DbEvent.create STATUS_PROCESSING, DbEvent.update STATUS_COMPLETED] := by
  unfold POSTRun
  rcases env with ⟨fd, fv, fp, fva, mk, wr, cr, pdf, uf, uc⟩
  cases fd with
  | error e => exact Or.inl rfl
  | ok u =>
    cases fv
    · exact Or.inl rfl
    · cases fp
      · exact Or.inl rfl
      · cases fva
        · exact Or.inl rfl
        · cases mk with
          | error e => exact Or.inl rfl
          | ok u1 =>
            cases wr with
            | error e => exact Or.inl rfl
            | ok u2 =>
              cases cr with
              | error e => exact Or.inl rfl
              | ok subId =>
                cases pdf with
                | error e =>
                  cases uf with
                  | error e2 => exact Or.inr (Or.inl rfl)
                  | ok u3 => exact Or.inr (Or.inr (Or.inl rfl))
                | ok p =>
                  cases uc with
                  | error e2 => exact Or.inr (Or.inl rfl)
                  | ok u3 => exact Or.inr (Or.inr (Or.inr rfl))

/-- C8 (amended): the download handler returns a PDF body (with
Content-Type `application/pdf`) exactly when the requested id passes the
length validation (at least 10 characters), the submission exists, its
status is neither `processing` nor `failed`, a generated PDF path is
recorded (JS-truthily), and the file on disk is readable and non-empty; in
every other case the response is an error whose status code is 202 or at
least 400, and a response is always exactly one of the two kinds. -/
theorem GET_download_iff (id : JStr) (env : GetEnv) :
    ((∃ n fn, GETRun id env = .pdf n (jstr "application/pdf") fn) ↔
      (10 ≤ id.length ∧ ∃ r, env.record = some r ∧
        r.status ≠ STATUS_PROCESSING ∧ r.status ≠ STATUS_FAILED ∧
        jsTruthy r.generatedPdfPath = true ∧ ∃ k, env.file = FileView.present (k + 1))) ∧
    (∀ c msg, GETRun id env = .err c msg → c = 202 ∨ 400 ≤ c) ∧
    ((∃ n fn, GETRun id env = .pdf n (jstr "application/pdf") fn) ∨
      (∃ c msg, GETRun id env = .err c msg)) := by
  rcases env with ⟨rec, fv⟩
  unfold GETRun
  by_cases hid : id.length < 10
  · rw [if_pos hid]
    refine ⟨⟨?_, ?_⟩, ?_, Or.inr ⟨_, _, rfl⟩⟩
    · rintro ⟨n, fn, h⟩
      exact absurd h (by simp)
    · rintro ⟨hlen, -⟩
      exact absurd hid (not_lt.2 hlen)
    · intro c msg h
      obtain ⟨e1, e2⟩ := GetResponse.err.inj h.symm
      subst e1
      exact Or.inr (by norm_num)
  · rw [if_neg hid]
    have hlen : 10 ≤ id.length := not_lt.1 hid
    cases rec with
    | none =>
      refine ⟨⟨?_, ?_⟩, ?_, Or.inr ⟨_, _, rfl⟩⟩
      · rintro ⟨n, fn, h⟩
        exact absurd h (by simp)
      · rintro ⟨-, r, hr, -⟩
        exact Option.noConfusion hr
      · intro c msg h
        obtain ⟨e1, e2⟩ := GetResponse.err.inj h.symm
        subst e1
        exact Or.inr (by norm_num)
    | some r =>
      dsimp only
      by_cases hs1 : r.status = STATUS_PROCESSING
      · rw [if_pos hs1]
        refine ⟨⟨?_, ?_⟩, ?_, Or.inr ⟨_, _, rfl⟩⟩
        · rintro ⟨n, fn, h⟩
          exact absurd h (by simp)
        · rintro ⟨-, r2, hr2, hp2, -⟩
          obtain rfl := Option.some.inj hr2
          exact absurd hs1 hp2
        · intro c msg h
          obtain ⟨e1, e2⟩ := GetResponse.err.inj h.symm
          subst e1
          exact Or.inl rfl
      · rw [if_neg hs1]
        by_cases hs2 : r.status = STATUS_FAILED
        · rw [if_pos hs2]
          refine ⟨⟨?_, ?_⟩, ?_, Or.inr ⟨_, _, rfl⟩⟩
          · rintro ⟨n, fn, h⟩
            exact absurd h (by simp)
          · rintro ⟨-, r2, hr2, -, hf2, -⟩
            obtain rfl := Option.some.inj hr2
            exact absurd hs2 hf2
          · intro c msg h
            obtain ⟨e1, e2⟩ := GetResponse.err.inj h.symm
            subst e1
            exact Or.inr (by norm_num)
        · rw [if_neg hs2]
          by_cases hp : jsTruthy r.generatedPdfPath = false
          · rw [if_pos hp]
            refine ⟨⟨?_, ?_⟩, ?_, Or.inr ⟨_, _, rfl⟩⟩
            · rintro ⟨n, fn, h⟩
              exact absurd h (by simp)
            · rintro ⟨-, r2, hr2, -, -, ht2, -⟩
              obtain rfl := Option.some.inj hr2
              rw [ht2] at hp
              exact Bool.noConfusion hp
            · intro c msg h
              obtain ⟨e1, e2⟩ := GetResponse.err.inj h.symm
              subst e1
              exact Or.inr (by norm_num)
          · rw [if_neg hp]
            have htruthy : jsTruthy r.generatedPdfPath = true :=
              eq_true_of_ne_false hp
            cases fv with
            | absent =>
              refine ⟨⟨?_, ?_⟩, ?_, Or.inr ⟨_, _, rfl⟩⟩
              · rintro ⟨n, fn, h⟩
                exact absurd h (by simp)
              · rintro ⟨-, r2, -, -, -, -, k, hk⟩
                exact FileView.noConfusion hk
              · intro c msg h
                obtain ⟨e1, e2⟩ := GetResponse.err.inj h.symm
                subst e1
                exact Or.inr (by norm_num)
            | unreadable =>
              refine ⟨⟨?_, ?_⟩, ?_, Or.inr ⟨_, _, rfl⟩⟩
              · rintro ⟨n, fn, h⟩
                exact absurd h (by simp)
              · rintro ⟨-, r2, -, -, -, -, k, hk⟩
                exact FileView.noConfusion hk
              · intro c msg h
                obtain ⟨e1, e2⟩ := GetResponse.err.inj h.symm
                subst e1
                exact Or.inr (by norm_num)
            | present n =>
              cases n with
              | zero =>
                refine ⟨⟨?_, ?_⟩, ?_, Or.inr ⟨_, _, rfl⟩⟩
                · rintro ⟨n, fn, h⟩
                  exact absurd h (by simp)
                · rintro ⟨-, r2, -, -, -, -, k, hk⟩
                  obtain e := FileView.present.inj hk
                  exact Nat.noConfusion e
                · intro c msg h
                  obtain ⟨e1, e2⟩ := GetResponse.err.inj h.symm
                  subst e1
                  exact Or.inr (by norm_num)
              | succ k =>
                refine ⟨⟨?_, ?_⟩, ?_, Or.inl ⟨_, _, rfl⟩⟩
                · intro h
                  exact ⟨hlen, r, rfl, hs1, hs2, htruthy, k, rfl⟩
                · intro h
                  exact ⟨k + 1, safeDownloadName r, rfl⟩
                · intro c msg h
                  exact absurd h (by simp)

/-- C8 counterexample: for the five-character id `"short"`, even with an
existing completed submission, a recorded path and a readable non-empty
file, the handler rejects the request with 400 before consulting anything
else, so the original claim's "exactly when" fails without the id-length
condition. -/
theorem GET_short_id_counterexample :
    GETRun (jstr "short")
        (GetEnv.mk
          (some (GetRecord.mk (jstr "Ann") (jstr "Lee")
            (some (jstr "uploads/generated/p.pdf")) (jstr "completed")))
          (FileView.present 5)) =
      GetResponse.err 400 (jstr "Invalid submission ID") ∧
    (GetRecord.mk (jstr "Ann") (jstr "Lee") (some (jstr "uploads/generated/p.pdf"))
        (jstr "completed")).status ≠ STATUS_PROCESSING ∧
    (GetRecord.mk (jstr "Ann") (jstr "Lee") (some (jstr "uploads/generated/p.pdf"))
        (jstr "completed")).status ≠ STATUS_FAILED ∧
    jsTruthy (GetRecord.mk (jstr "Ann") (jstr "Lee")
        (some (jstr "uploads/generated/p.pdf")) (jstr "completed")).generatedPdfPath = true := by
  refine ⟨?_, by decide, by decide, by decide⟩
  decide

theorem GET_download_iff_witness :
    ∃ n fn,
      GETRun (jstr "abcdefghij")
          (GetEnv.mk
            (some (GetRecord.mk (jstr "Ann") (jstr "Lee")
              (some (jstr "uploads/generated/p.pdf")) (jstr "completed")))
            (FileView.present 5)) =
        .pdf n (jstr "application/pdf") fn :=
  (GET_download_iff (jstr "abcdefghij") _).1.mpr
    ⟨by decide, _, rfl, by decide, by decide, by decide, 4, rfl⟩
